import Mathlib

/-!
A shallow embedding of `src/geoQuery.js` (the GeoQuery query-maintenance
engine of geofire-js) together with proofs about its event semantics.

The engine keeps a table of tracked locations, a registry of geohash-range
listeners on the backing store, and per-event callback lists; store
notifications (child added / changed / removed), point-read completions,
catch-up ("value") signals, timers and the public API calls are modelled
as explicit actions of a step function on the state.

External collaborators (the `GeoFire.distance`, `encodeGeohash`,
`geohashQueries` and `decodeGeofireObject` utilities, and the Firebase
store) are abstract parameters: locations are pairs of integers, the
decode result of a raw stored value is passed to the child callbacks as
an `Option Loc` (`none` = malformed payload), and store delivery is
modelled by guarding child events on the delivered geohash lying within a
registered range's bounds, which is how Firebase range listeners select
children by priority.
-/

/-- A location, the `[latitude, longitude]` pair of the source. -/
abbrev Loc := ℤ × ℤ

/-- A key naming a stored location. -/
abbrev Key := String

/-- A geohash query, the `[start, end]` string pair of the source.  The
source indexes its dictionaries by the encoded form `start ++ ":" ++ end`
(`_queryToString` / `_stringToQuery`); since geohashes contain no colon the
encoding is a bijection and the pair itself is used as the dictionary key
here. -/
abbrev GeohashRange := String × String

/-- The external pure utilities consumed by the engine. -/
structure Geo where
  /-- `GeoFire.distance`: distance in kilometers between two locations. -/
  distance : Loc → Loc → ℤ
  /-- `encodeGeohash` at the fixed precision `g_GEOHASH_PRECISION`. -/
  encodeGeohash : Loc → String
  /-- `geohashQueries center radiusMeters`: the covering set of geohash
  ranges for a circle. -/
  geohashQueries : Loc → ℤ → List GeohashRange

/-- The four event types of the engine. -/
inductive EventType
  | ready
  | key_entered
  | key_exited
  | key_moved
deriving DecidableEq, Repr

/-- One row of `_locations`: the tracked data for one key. -/
structure LocInfo where
  location : Loc
  distanceFromCenter : ℤ
  isInQuery : Bool
  geohash : String
deriving DecidableEq, Repr

/-- One call of `_fireCallbacksForKey` (or of the ready-event fan-out):
an event emission of the engine, before fan-out to callbacks.  The ready
event carries no key. -/
structure Emission where
  event : EventType
  key : Option Key
  location : Option Loc
  distanceFromCenter : Option ℤ
deriving DecidableEq, Repr

/-- `_fireCallbacksForKey` passes `(key, null, null)` when the location is
null and `(key, location, distance)` otherwise. -/
def mkEmission (ev : EventType) (k : Key) (loc : Option Loc) (d : Option ℤ) : Emission :=
  match loc with
  | none => ⟨ev, some k, none, none⟩
  | some l => ⟨ev, some k, some l, d⟩

/-- The whole mutable state of one GeoQuery instance. -/
structure GQState where
  /-- `_center`. -/
  center : Loc
  /-- `_radius`, kilometers. -/
  radius : ℤ
  /-- `_locations`, in insertion order (JS string-keyed objects iterate in
  insertion order); keys are unique. -/
  locations : List (Key × LocInfo)
  /-- `_currentGeohashesQueried`: registered ranges with their flag
  (`true` = keep, `false` = marked for teardown); keys unique, insertion
  order. -/
  currentGeohashesQueried : List (GeohashRange × Bool)
  /-- `_valueEventFired`. -/
  valueEventFired : Bool
  /-- `_geohashesToQuery` after the marking loop: the genuinely new ranges
  of the last coverage recomputation. -/
  geohashesToQuery : List GeohashRange
  /-- `_numGeohashesToQueryProcessed`. -/
  numGeohashesToQueryProcessed : ℕ
  /-- `_geohashCleanupScheduled`. -/
  geohashCleanupScheduled : Bool
  /-- `_cleanUpCurrentGeohashesQueriedTimeout`: `some delay` while a
  cleanup timeout is pending. -/
  cleanupTimeout : Option ℕ
  /-- Whether `_cleanUpCurrentGeohashesQueriedInterval` is still running
  (cleared by `cancel`). -/
  intervalActive : Bool
  /-- `_callbacks`: the registered callbacks as (event type, callback id)
  in registration order. -/
  callbacks : List (EventType × ℕ)
  /-- Keys with an outstanding `once("value")` point read issued by
  `_childRemovedCallback`; such reads are never detached, not even by
  `cancel`. -/
  pendingReads : List Key
  /-- Outstanding `once("value", _checkIfShouldFireReadyEvent)` catch-up
  callbacks of range listeners; also never detached. -/
  pendingCatchups : ℕ

/-- Dictionary read `_locations[key]` (`hasOwnProperty` guarded). -/
def lookupLoc : List (Key × LocInfo) → Key → Option LocInfo
  | [], _ => none
  | p :: rest, k => if p.1 = k then some p.2 else lookupLoc rest k

/-- Dictionary write `_locations[key] = v`: replaces the entry in place if
the key is present, otherwise appends it. -/
def setLoc : List (Key × LocInfo) → Key → LocInfo → List (Key × LocInfo)
  | [], k, v => [(k, v)]
  | p :: rest, k, v => if p.1 = k then (k, v) :: rest else p :: setLoc rest k v

/-- Dictionary delete `delete _locations[key]`. -/
def delLoc : List (Key × LocInfo) → Key → List (Key × LocInfo)
  | [], _ => []
  | p :: rest, k => if p.1 = k then rest else p :: delLoc rest k

/-- `_locations.hasOwnProperty(key) ? _locations[key].isInQuery : false`. -/
def keyIsInQuery (st : GQState) (k : Key) : Bool :=
  match lookupLoc st.locations k with
  | some info => info.isInQuery
  | none => false

/-- Lexicographic `≤` on char lists: the JS relational comparison of two
strings. -/
def charListLe : List Char → List Char → Bool
  | [], _ => true
  | _ :: _, [] => false
  | a :: as, b :: bs => if a < b then true else if b < a then false else charListLe as bs

/-- The JS string comparison `a <= b` (lexicographic on code units). -/
def strLe (a b : String) : Bool := charListLe a.data b.data

/-- `_geohashInSomeQuery`: whether a geohash lies within the bounds of any
registered range, active or not.  The `none` case models the `null`
geohash of a deleted key, for which the JS relational comparison against
(non-numeric) geohash bounds is false. -/
def geohashInSomeQuery (ranges : List (GeohashRange × Bool)) (geohash : Option String) :
    Bool :=
  match geohash with
  | none => false
  | some gh => ranges.any (fun p => strLe p.1.1 gh && strLe gh p.1.2)

/-- `_updateLocation`: upserts the key's row and fires the membership
diff event. -/
def updateLocation (g : Geo) (st : GQState) (key : Key) (location : Loc) :
    GQState × List Emission :=
  let wasInQuery := keyIsInQuery st key
  let oldLocation : Option Loc := (lookupLoc st.locations key).map (·.location)
  let distanceFromCenter := g.distance location st.center
  let isInQuery := decide (distanceFromCenter ≤ st.radius)
  let newInfo : LocInfo :=
    { location := location, distanceFromCenter := distanceFromCenter,
      isInQuery := isInQuery, geohash := g.encodeGeohash location }
  let st' := { st with locations := setLoc st.locations key newInfo }
  if isInQuery && !wasInQuery then
    (st', [mkEmission .key_entered key (some location) (some distanceFromCenter)])
  else if isInQuery &&
      (match oldLocation with
       | some l => decide (location.1 ≠ l.1) || decide (location.2 ≠ l.2)
       | none => false) then
    (st', [mkEmission .key_moved key (some location) (some distanceFromCenter)])
  else if !isInQuery && wasInQuery then
    (st', [mkEmission .key_exited key (some location) (some distanceFromCenter)])
  else (st', [])

/-- `_cleanUpCurrentGeohashesQueried`: detach and drop every range marked
`false`, evict every tracked key whose geohash is covered by none of the
remaining ranges, clear the scheduled flag and any pending timeout. -/
def cleanUpCurrentGeohashesQueried (st : GQState) : GQState :=
  let ranges' := st.currentGeohashesQueried.filter (fun p => p.2)
  { st with currentGeohashesQueried := ranges',
            locations := st.locations.filter
              (fun p => geohashInSomeQuery ranges' (some p.2.geohash)),
            geohashCleanupScheduled := false,
            cleanupTimeout := none }

/-- Helper of `dedupFirst`: drop elements already seen. -/
def dedupFirstAux (seen : List GeohashRange) : List GeohashRange → List GeohashRange
  | [] => []
  | x :: xs =>
    if x ∈ seen then dedupFirstAux seen xs
    else x :: dedupFirstAux (x :: seen) xs

/-- The deduplication `filter (indexOf === i)` of `_listenForNewGeohashes`:
keeps the first occurrence of each range. -/
def dedupFirst (l : List GeohashRange) : List GeohashRange := dedupFirstAux [] l

/-- `_listenForNewGeohashes`: recompute coverage, mark kept/stale ranges,
maybe schedule a cleanup, and register listeners (plus one pending
catch-up each) for the genuinely new ranges. -/
def listenForNewGeohashes (g : Geo) (st : GQState) : GQState :=
  let toQuery0 := dedupFirst (g.geohashQueries st.center (st.radius * 1000))
  -- the marking loop: existing ranges still required are flagged true and
  -- spliced out of the to-query list, the rest are flagged false
  let ranges' := st.currentGeohashesQueried.map
      (fun p => (p.1, decide (p.1 ∈ toQuery0)))
  let toQuery := toQuery0.filter
      (fun q => !(st.currentGeohashesQueried.any (fun p => decide (p.1 = q))))
  -- the high-water check runs here, before the new ranges are added
  let doSchedule := !st.geohashCleanupScheduled && decide (ranges'.length > 25)
  { st with
      geohashesToQuery := toQuery,
      currentGeohashesQueried := ranges' ++ toQuery.map (fun q => (q, true)),
      numGeohashesToQueryProcessed := 0,
      geohashCleanupScheduled := st.geohashCleanupScheduled || doSchedule,
      cleanupTimeout := if doSchedule then some 10 else st.cleanupTimeout,
      pendingCatchups := st.pendingCatchups + toQuery.length }

/-- `_checkIfShouldFireReadyEvent`: one catch-up signal arrived. -/
def checkIfShouldFireReadyEvent (st : GQState) : GQState × List Emission :=
  let n := st.numGeohashesToQueryProcessed + 1
  let fired := decide (n = st.geohashesToQuery.length)
  let st' := { st with numGeohashesToQueryProcessed := n, valueEventFired := fired }
  if fired then (st', [⟨.ready, none, none, none⟩]) else (st', [])

/-- The completion closure of the `once("value")` read that
`_childRemovedCallback` issues for a tracked key. -/
def removedReadResolve (g : Geo) (st : GQState) (key : Key) (location : Option Loc) :
    GQState × List Emission :=
  let geohash := location.map g.encodeGeohash
  if !geohashInSomeQuery st.currentGeohashesQueried geohash then
    let locationDict := lookupLoc st.locations key
    let st' := { st with locations := delLoc st.locations key }
    let dist := location.map (fun l => g.distance l st.center)
    match locationDict with
    | some info =>
      if info.isInQuery then (st', [mkEmission .key_exited key location dist])
      else (st', [])
    | none => (st', [])
  else (st, [])

/-- `_center = newQueryCriteria.center || _center`: a supplied center (a
JS array, always truthy) replaces the old one. -/
def newCenterOf (st : GQState) (c : Option Loc) : Loc :=
  match c with
  | some x => x
  | none => st.center

/-- `_radius = newQueryCriteria.radius || _radius`: the JS falsy default,
under which a supplied radius of `0` keeps the old radius. -/
def newRadiusOf (st : GQState) (r : Option ℤ) : ℤ :=
  match r with
  | some x => if x = 0 then st.radius else x
  | none => st.radius

/-- The per-row update of the `updateCriteria` loop: refresh the distance
against the new center and the in-query flag against the new radius. -/
def updRowCriteria (g : Geo) (center : Loc) (radius : ℤ) (info : LocInfo) : LocInfo :=
  let d := g.distance info.location center
  { info with distanceFromCenter := d, isInQuery := decide (d ≤ radius) }

/-- The event the `updateCriteria` loop fires for one tracked row: the
row left the query, entered it, or neither.  `key_exited`/`key_entered`
are fired with the row's location and its freshly updated distance. -/
def emissionsForCriteria (g : Geo) (center : Loc) (radius : ℤ) (p : Key × LocInfo) :
    Option Emission :=
  let info' := updRowCriteria g center radius p.2
  if p.2.isInQuery && !info'.isInQuery then
    some (mkEmission .key_exited p.1 (some info'.location) (some info'.distanceFromCenter))
  else if !p.2.isInQuery && info'.isInQuery then
    some (mkEmission .key_entered p.1 (some info'.location) (some info'.distanceFromCenter))
  else none

/-- `updateCriteria`: replace the criteria, rediff every tracked row
against the new criteria, reset the ready state and recompute
coverage. -/
def updateCriteriaFn (g : Geo) (st : GQState) (c : Option Loc) (r : Option ℤ) :
    GQState × List Emission :=
  let center := newCenterOf st c
  let radius := newRadiusOf st r
  let upd := updRowCriteria g center radius
  let emissionsFor := emissionsForCriteria g center radius
  let locations' := st.locations.map (fun p => (p.1, upd p.2))
  let st' := { st with
                 center := center, radius := radius,
                 locations := locations', valueEventFired := false }
  (listenForNewGeohashes g st', st.locations.filterMap emissionsFor)

/-- `cancel`: clear the callbacks, detach every range listener, drop the
location table and stop the periodic sweep.  Outstanding `once` reads and
catch-ups are not detached, and a pending cleanup timeout is not
cancelled. -/
def cancelFn (st : GQState) : GQState :=
  { st with callbacks := [],
            currentGeohashesQueried := [],
            locations := [],
            intervalActive := false }

/-- The external stimuli processed by one engine instance.  Child events
carry the decode result of the raw stored value (`none` = malformed). -/
inductive GQAction
  | childAdded (key : Key) (v : Option Loc)
  | childChanged (key : Key) (v : Option Loc)
  | childRemoved (key : Key)
  | readComplete (key : Key) (v : Option Loc)
  | rangeCaughtUp
  | updateCriteria (c : Option Loc) (r : Option ℤ)
  | cleanupTimerFire
  | intervalTick
  | cancel
deriving DecidableEq, Repr

/-- One step of the engine: dispatch an action to the corresponding
handler.  Child events are delivered only while a registered range's
bounds contain the child's priority (the geohash of its location), which
is how the Firebase range listeners select children; an undeliverable
event is a no-op.  A read completion is processed only for a key with an
outstanding read, a catch-up only while catch-ups are outstanding, and
the timers only while pending (respectively running). -/
def gqStep (g : Geo) (st : GQState) : GQAction → GQState × List Emission
  | .childAdded key v =>
    match v with
    | none => (st, [])
    | some location =>
      if geohashInSomeQuery st.currentGeohashesQueried (some (g.encodeGeohash location)) then
        updateLocation g st key location
      else (st, [])
  | .childChanged key v =>
    match v with
    | none => (st, [])
    | some location =>
      if geohashInSomeQuery st.currentGeohashesQueried (some (g.encodeGeohash location)) then
        updateLocation g st key location
      else (st, [])
  | .childRemoved key =>
    if (lookupLoc st.locations key).isSome then
      ({ st with pendingReads := st.pendingReads ++ [key] }, [])
    else (st, [])
  | .readComplete key v =>
    if st.pendingReads.contains key then
      removedReadResolve g { st with pendingReads := st.pendingReads.erase key } key v
    else (st, [])
  | .rangeCaughtUp =>
    if st.pendingCatchups > 0 then
      checkIfShouldFireReadyEvent { st with pendingCatchups := st.pendingCatchups - 1 }
    else (st, [])
  | .updateCriteria c r => updateCriteriaFn g st c r
  | .cleanupTimerFire =>
    match st.cleanupTimeout with
    | some _ => (cleanUpCurrentGeohashesQueried st, [])
    | none => (st, [])
  | .intervalTick =>
    if st.intervalActive && !st.geohashCleanupScheduled then
      (cleanUpCurrentGeohashesQueried st, [])
    else (st, [])
  | .cancel => (cancelFn st, [])

/-- Run a list of actions, accumulating the emissions. -/
def runActs (g : Geo) (st : GQState) : List GQAction → GQState × List Emission
  | [] => (st, [])
  | a :: as =>
    let s := gqStep g st a
    let s' := runActs g s.1 as
    (s'.1, s.2 ++ s'.2)

/-- The constructor: empty tables, ready state not fired, periodic sweep
running, then an initial coverage computation. -/
def initState (g : Geo) (c : Loc) (r : ℤ) : GQState :=
  listenForNewGeohashes g
    { center := c, radius := r, locations := [], currentGeohashesQueried := [],
      valueEventFired := false, geohashesToQuery := [],
      numGeohashesToQueryProcessed := 0, geohashCleanupScheduled := false,
      cleanupTimeout := none, intervalActive := true, callbacks := [],
      pendingReads := [], pendingCatchups := 0 }

/-- One synchronous callback invocation, as observed by a client:
which callback ran, for which event, with which arguments. -/
structure Invocation where
  cb : ℕ
  event : EventType
  key : Option Key
  location : Option Loc
  distanceFromCenter : Option ℤ
deriving DecidableEq, Repr

/-- The synchronous replay loop of `on("key_entered", callback)`: the new
callback is called once for every tracked key whose `isInQuery` flag is
set, in table order. -/
def enteredReplay (cb : ℕ) (l : List (Key × LocInfo)) : List Invocation :=
  l.filterMap (fun p =>
    if p.2.isInQuery then
      some ⟨cb, .key_entered, some p.1, some p.2.location, some p.2.distanceFromCenter⟩
    else none)

/-- `on(eventType, callback)`: append the callback and synchronously
replay it — for `key_entered`, once per currently in-query tracked key;
for `ready`, once if the ready state already fired. -/
def onEvent (st : GQState) (eventType : EventType) (cb : ℕ) :
    GQState × List Invocation :=
  let st' := { st with callbacks := st.callbacks ++ [(eventType, cb)] }
  let invs := match eventType with
    | .key_entered => enteredReplay cb st.locations
    | .ready =>
      if st.valueEventFired then [⟨cb, .ready, none, none, none⟩] else []
    | _ => []
  (st', invs)

/-- The coverage check the removal resolution performs on the point-read
result: the geohash of the read location (null when absent) against every
registered range. -/
def readCovered (g : Geo) (st : GQState) (v : Option Loc) : Bool :=
  geohashInSomeQuery st.currentGeohashesQueried (v.map g.encodeGeohash)

/-- Fan an emission out to the registered callbacks of its event type, in
registration order. -/
def fireInvocations (cbs : List (EventType × ℕ)) (e : Emission) : List Invocation :=
  (cbs.filter (fun p => decide (p.1 = e.event))).map
    (fun p => ⟨p.2, e.event, e.key, e.location, e.distanceFromCenter⟩)

/-- Run a list of actions and collect every callback invocation each step
produces (fan-out of the step's emissions over the callbacks registered
when the step ran). -/
def runInvs (g : Geo) (st : GQState) : List GQAction → List Invocation
  | [] => []
  | a :: as =>
    let s := gqStep g st a
    s.2.flatMap (fireInvocations st.callbacks) ++ runInvs g s.1 as

/-- The row `_updateLocation` writes for a location under the current
criteria. -/
def newRowOf (g : Geo) (st : GQState) (location : Loc) : LocInfo :=
  { location := location,
    distanceFromCenter := g.distance location st.center,
    isInQuery := decide (g.distance location st.center ≤ st.radius),
    geohash := g.encodeGeohash location }

/-- How many ready events an emission list contains. -/
def readyCount (es : List Emission) : ℕ :=
  es.countP (fun e => decide (e.event = .ready))

/-! ## Properties of states and traces -/

/-- The per-key subsequence of enter/exit events of an emission list:
`true` for a `key_entered` of the key, `false` for a `key_exited`. -/
def enterExitProj (k : Key) (es : List Emission) : List Bool :=
  es.filterMap (fun e =>
    if e.key = some k then
      match e.event with
      | .key_entered => some true
      | .key_exited => some false
      | _ => none
    else none)

/-- No two adjacent `true` entries: the key never fires `key_entered`
twice without an intervening `key_exited`. -/
def noDupEnter : List Bool → Bool
  | [] => true
  | [_] => true
  | a :: b :: l => !(a && b) && noDupEnter (b :: l)

/-- The collaborator contract of `geohashQueries` (spec §6, glossary):
the coverage computed for a circle contains the geohash of every location
within the circle.  The engine calls it with the radius converted to
meters, and geohashes are produced by `encodeGeohash`. -/
def CovSound (g : Geo) : Prop :=
  ∀ c r loc, g.distance loc c ≤ r →
    ∃ q ∈ g.geohashQueries c (r * 1000),
      strLe q.1 (g.encodeGeohash loc) = true ∧
      strLe (g.encodeGeohash loc) q.2 = true

/-- The keys of the location table are pairwise distinct (it models a JS
object keyed by string). -/
@[reducible] def keysNodup (st : GQState) : Prop := (st.locations.map Prod.fst).Nodup

/-- Every tracked row's cached fields agree with the current criteria:
its distance is the distance of its location to the current center, its
in-query flag is the comparison of that distance with the current radius,
and its geohash is the encoding of its location. -/
def locationsCoherent (g : Geo) (st : GQState) : Prop :=
  ∀ k info, lookupLoc st.locations k = some info →
    info.distanceFromCenter = g.distance info.location st.center ∧
    info.isInQuery = decide (info.distanceFromCenter ≤ st.radius) ∧
    info.geohash = g.encodeGeohash info.location

/-- Every range of the current coverage is registered and flagged
`true`. -/
def covRegistered (g : Geo) (st : GQState) : Prop :=
  ∀ q ∈ dedupFirst (g.geohashQueries st.center (st.radius * 1000)),
    (q, true) ∈ st.currentGeohashesQueried

/-- The whole invariant carried through executions. -/
def GoodState (g : Geo) (st : GQState) : Prop :=
  keysNodup st ∧ locationsCoherent g st ∧ covRegistered g st

/-- What one step may do to one key's enter/exit trace: nothing (and the
in-query status is unchanged), one enter (from out-of-query to
in-query), or one exit (ending out-of-query). -/
def stepEventsOK (st st' : GQState) (es : List Emission) : Prop :=
  ∀ k : Key,
    (enterExitProj k es = [] ∧ keyIsInQuery st' k = keyIsInQuery st k) ∨
    (enterExitProj k es = [true] ∧ keyIsInQuery st k = false ∧
      keyIsInQuery st' k = true) ∨
    (enterExitProj k es = [false] ∧ keyIsInQuery st' k = false)

/-- The accumulated emissions alternate per key and their last enter/exit
entry matches the key's current in-query status. -/
def traceMatches (st : GQState) (es : List Emission) : Prop :=
  ∀ k, noDupEnter (enterExitProj k es) = true ∧
       (enterExitProj k es).getLast?.getD false = keyIsInQuery st k

/-- Whether an action is an `updateCriteria` call. -/
def isCriteriaUpdate : GQAction → Bool
  | .updateCriteria _ _ => true
  | _ => false

/-! ## Concrete instances for witnesses and counterexamples -/

/-- A concrete collaborator: Manhattan distance, a constant geohash and a
single covering range. -/
def geoA : Geo :=
  { distance := fun a b => |a.1 - b.1| + |a.2 - b.2|,
    encodeGeohash := fun _ => "m",
    geohashQueries := fun _ _ => [("a", "z")] }

/-- A concrete collaborator whose coverage depends on the center: 20
ranges at the origin, 7 elsewhere. -/
def geoB : Geo :=
  { distance := fun _ _ => 0,
    encodeGeohash := fun _ => "m",
    geohashQueries := fun c _ =>
      if c = ((0 : ℤ), (0 : ℤ)) then
        (List.range 20).map (fun i => ("a" ++ Nat.repr i, "a" ++ Nat.repr i))
      else
        (List.range 7).map (fun i => ("z" ++ Nat.repr i, "z" ++ Nat.repr i)) }

/-- A concrete collaborator whose geohash depends on the location, so a
key can move out of every registered range. -/
def geoC : Geo :=
  { distance := fun a b => |a.1 - b.1| + |a.2 - b.2|,
    encodeGeohash := fun l => if l.1 = 0 then "m" else "zz",
    geohashQueries := fun _ _ => [("a", "z")] }

/-- A caught-up engine with one in-query key, for the idempotent
`updateCriteria` scenario: center (0,0), radius 2, key "a" at distance
1, ready already fired. -/
def c2State : GQState :=
  (runActs geoA (initState geoA (0, 0) 2)
    [.rangeCaughtUp, .childAdded "a" (some (1, 0))]).1

/-- The result of calling `updateCriteria` on `c2State` with the same
center and radius it already has. -/
def c2After : GQState × List Emission :=
  gqStep geoA c2State (.updateCriteria (some (0, 0)) (some 2))

/-- A state with 26 registered ranges and no cleanup pending. -/
def st26 : GQState :=
  { center := (0, 0), radius := 1, locations := [],
    currentGeohashesQueried :=
      (List.range 26).map (fun i => ((Nat.repr i, Nat.repr i), true)),
    valueEventFired := false, geohashesToQuery := [],
    numGeohashesToQueryProcessed := 0, geohashCleanupScheduled := false,
    cleanupTimeout := none, intervalActive := true, callbacks := [],
    pendingReads := [], pendingCatchups := 0 }

/-- Enter, exit, and re-enter for one key. -/
def actsC4 : List GQAction :=
  [.childAdded "a" (some (0, 0)), .childAdded "a" (some (5, 5)),
   .childAdded "a" (some (0, 0))]

/-- An engine with radius 2 around the origin and key "a" in-query at
distance 1. -/
def c1State : GQState :=
  (runActs geoA (initState geoA (0, 0) 2) [.childAdded "a" (some (1, 0))]).1

/-- The result of calling `updateCriteria` with a new radius of 0 on
`c1State`. -/
def c1After : GQState × List Emission :=
  gqStep geoA c1State (.updateCriteria none (some 0))

/-- The engine of `geoB` after construction at the origin (20 registered
ranges) and a criteria update moving the center (7 new ranges, the 20 old
ones marked stale). -/
def c7State : GQState :=
  (gqStep geoB (initState geoB (0, 0) 5) (.updateCriteria (some (1, 1)) none)).1

/-- Construction of `geoC` at the origin, key "k" entering at the origin,
its removal notification, then the point read completing with a location
whose geohash lies outside every registered range. -/
def c3Trace : GQState × List Emission :=
  runActs geoC (initState geoC (0, 0) 1)
    [.childAdded "k" (some (0, 0)), .childRemoved "k",
     .readComplete "k" (some (2, 0))]

/-- A state with two tracked keys, one in-query and one not, for the
`key_entered` replay of `on`. -/
def c6State : GQState :=
  (runActs geoA (initState geoA (0, 0) 2)
    [.childAdded "a" (some (1, 0)), .childAdded "b" (some (3, 0))]).1

/-- A literal state for exercising the removal–resolution contract: one
registered range `["a","b"]`, key "k" tracked in-query with geohash "z",
and an outstanding point read for "k". -/
def c3WitnessState : GQState :=
  { center := (0, 0), radius := 1,
    locations := [("k", { location := (0, 0), distanceFromCenter := 0,
                          isInQuery := true, geohash := "z" })],
    currentGeohashesQueried := [(("a", "b"), true)],
    valueEventFired := false, geohashesToQuery := [],
    numGeohashesToQueryProcessed := 0, geohashCleanupScheduled := false,
    cleanupTimeout := none, intervalActive := true, callbacks := [],
    pendingReads := ["k"], pendingCatchups := 0 }

/-! ## Association-list lemmas -/

lemma lookupLoc_eq_none_of_not_mem {l : List (Key × LocInfo)} {k : Key}
    (h : k ∉ l.map Prod.fst) : lookupLoc l k = none := by
  induction l with
  | nil => rfl
  | cons p rest ih =>
    have h1 : p.1 ≠ k := fun e => h (by simp [e])
    have h2 : k ∉ rest.map Prod.fst := fun hm => h (by simp [hm])
    rw [lookupLoc, if_neg h1]
    exact ih h2

lemma lookupLoc_setLoc_self (l : List (Key × LocInfo)) (k : Key) (v : LocInfo) :
    lookupLoc (setLoc l k v) k = some v := by
  induction l with
  | nil => simp [setLoc, lookupLoc]
  | cons p rest ih =>
    by_cases hp : p.1 = k
    · simp [setLoc, hp, lookupLoc]
    · simp only [setLoc, if_neg hp, lookupLoc, if_neg hp]
      exact ih

lemma lookupLoc_setLoc_other (l : List (Key × LocInfo)) (k k' : Key) (v : LocInfo)
    (h : k' ≠ k) : lookupLoc (setLoc l k v) k' = lookupLoc l k' := by
  have hkk : ¬ (k = k') := fun e => h e.symm
  induction l with
  | nil => simp only [setLoc, lookupLoc, if_neg hkk]
  | cons p rest ih =>
    by_cases hp : p.1 = k
    · have h2 : ¬ (p.1 = k') := by rw [hp]; exact hkk
      simp only [setLoc, if_pos hp, lookupLoc, if_neg hkk, if_neg h2]
    · by_cases hp' : p.1 = k'
      · simp only [setLoc, if_neg hp, lookupLoc, if_pos hp']
      · simp only [setLoc, if_neg hp, lookupLoc, if_neg hp']
        exact ih

lemma mem_keys_setLoc {l : List (Key × LocInfo)} {k x : Key} {v : LocInfo}
    (h : x ∈ (setLoc l k v).map Prod.fst) : x ∈ l.map Prod.fst ∨ x = k := by
  induction l with
  | nil => simpa [setLoc] using h
  | cons p rest ih =>
    by_cases hp : p.1 = k
    · simp only [setLoc, if_pos hp, List.map_cons, List.mem_cons] at h ⊢
      rcases h with h | h
      · exact Or.inr h
      · exact Or.inl (Or.inr h)
    · simp only [setLoc, if_neg hp, List.map_cons, List.mem_cons] at h ⊢
      rcases h with h | h
      · exact Or.inl (Or.inl h)
      · rcases ih h with h | h
        · exact Or.inl (Or.inr h)
        · exact Or.inr h

lemma keysNodup_setLoc {l : List (Key × LocInfo)} {k : Key} {v : LocInfo}
    (h : (l.map Prod.fst).Nodup) : ((setLoc l k v).map Prod.fst).Nodup := by
  induction l with
  | nil => simp [setLoc]
  | cons p rest ih =>
    simp only [List.map_cons, List.nodup_cons] at h
    by_cases hp : p.1 = k
    · simp only [setLoc, if_pos hp, List.map_cons, List.nodup_cons]
      exact ⟨hp ▸ h.1, h.2⟩
    · simp only [setLoc, if_neg hp, List.map_cons, List.nodup_cons]
      refine ⟨fun hm => ?_, ih h.2⟩
      rcases mem_keys_setLoc hm with hm | hm
      · exact h.1 hm
      · exact hp hm

lemma lookupLoc_delLoc_other (l : List (Key × LocInfo)) (k k' : Key)
    (h : k' ≠ k) : lookupLoc (delLoc l k) k' = lookupLoc l k' := by
  induction l with
  | nil => rfl
  | cons p rest ih =>
    by_cases hp : p.1 = k
    · have h2 : ¬ (p.1 = k') := by rw [hp]; exact fun e => h e.symm
      simp only [delLoc, if_pos hp, lookupLoc, if_neg h2]
    · by_cases hp' : p.1 = k'
      · simp only [delLoc, if_neg hp, lookupLoc, if_pos hp']
      · simp only [delLoc, if_neg hp, lookupLoc, if_neg hp']
        exact ih

lemma keys_delLoc_sublist (l : List (Key × LocInfo)) (k : Key) :
    List.Sublist ((delLoc l k).map Prod.fst) (l.map Prod.fst) := by
  induction l with
  | nil => simp [delLoc]
  | cons p rest ih =>
    by_cases hp : p.1 = k
    · simp only [delLoc, if_pos hp, List.map_cons]
      exact List.sublist_cons_self _ _
    · simp only [delLoc, if_neg hp, List.map_cons]
      exact ih.cons₂ _

lemma lookupLoc_delLoc_self {l : List (Key × LocInfo)} {k : Key}
    (h : (l.map Prod.fst).Nodup) : lookupLoc (delLoc l k) k = none := by
  induction l with
  | nil => rfl
  | cons p rest ih =>
    simp only [List.map_cons, List.nodup_cons] at h
    by_cases hp : p.1 = k
    · simp only [delLoc, if_pos hp]
      exact lookupLoc_eq_none_of_not_mem (hp ▸ h.1)
    · simp only [delLoc, if_neg hp, lookupLoc, if_neg hp]
      exact ih h.2

lemma keysNodup_delLoc {l : List (Key × LocInfo)} {k : Key}
    (h : (l.map Prod.fst).Nodup) : ((delLoc l k).map Prod.fst).Nodup :=
  List.Nodup.sublist (keys_delLoc_sublist l k) h

lemma lookupLoc_map_snd (l : List (Key × LocInfo)) (f : LocInfo → LocInfo) (k : Key) :
    lookupLoc (l.map (fun p => (p.1, f p.2))) k = (lookupLoc l k).map f := by
  induction l with
  | nil => rfl
  | cons p rest ih =>
    by_cases hp : p.1 = k
    · simp [lookupLoc, hp]
    · simp [lookupLoc, hp, ih]

lemma keys_map_snd (l : List (Key × LocInfo)) (f : LocInfo → LocInfo) :
    (l.map (fun p => (p.1, f p.2))).map Prod.fst = l.map Prod.fst := by
  induction l with
  | nil => rfl
  | cons p rest ih => simp [ih]

lemma keys_filter_sublist (l : List (Key × LocInfo)) (f : Key × LocInfo → Bool) :
    List.Sublist ((l.filter f).map Prod.fst) (l.map Prod.fst) :=
  (List.filter_sublist l).map Prod.fst

lemma keysNodup_filter {l : List (Key × LocInfo)} (f : Key × LocInfo → Bool)
    (h : (l.map Prod.fst).Nodup) : ((l.filter f).map Prod.fst).Nodup :=
  List.Nodup.sublist (keys_filter_sublist l f) h

lemma lookupLoc_filter {l : List (Key × LocInfo)} (f : Key × LocInfo → Bool) (k : Key)
    (h : (l.map Prod.fst).Nodup) :
    lookupLoc (l.filter f) k =
      match lookupLoc l k with
      | some info => if f (k, info) then some info else none
      | none => none := by
  induction l with
  | nil => rfl
  | cons p rest ih =>
    simp only [List.map_cons, List.nodup_cons] at h
    by_cases hp : p.1 = k
    · have hpair : (k, p.2) = p := by rw [← hp]
      cases hf : f p with
      | true =>
        simp [List.filter_cons, hf, lookupLoc, hp, hpair]
      | false =>
        have hnone : lookupLoc (rest.filter f) k = none :=
          lookupLoc_eq_none_of_not_mem
            (fun hm => h.1 (by rw [hp]; exact (keys_filter_sublist rest f).subset hm))
        simp [List.filter_cons, hf, lookupLoc, hp, hpair, hnone]
    · cases hf : f p with
      | true => simp [List.filter_cons, hf, lookupLoc, hp, ih h.2]
      | false => simp [List.filter_cons, hf, lookupLoc, hp, ih h.2]

lemma lookupLoc_eq_none_iff {l : List (Key × LocInfo)} {k : Key} :
    lookupLoc l k = none ↔ k ∉ l.map Prod.fst := by
  constructor
  · intro h hm
    induction l with
    | nil => simp at hm
    | cons p rest ih =>
      by_cases hp : p.1 = k
      · rw [lookupLoc, if_pos hp] at h
        exact Option.noConfusion h
      · rw [lookupLoc, if_neg hp] at h
        simp only [List.map_cons, List.mem_cons] at hm
        rcases hm with hm | hm
        · exact hp hm.symm
        · exact ih h hm
  · exact lookupLoc_eq_none_of_not_mem

/-! ## Emission and trace lemmas -/

lemma mkEmission_key (ev : EventType) (k : Key) (loc : Option Loc) (d : Option ℤ) :
    (mkEmission ev k loc d).key = some k := by
  cases loc <;> rfl

lemma mkEmission_event (ev : EventType) (k : Key) (loc : Option Loc) (d : Option ℤ) :
    (mkEmission ev k loc d).event = ev := by
  cases loc <;> rfl

lemma enterExitProj_nil (k : Key) : enterExitProj k [] = [] := rfl

lemma enterExitProj_append (k : Key) (es₁ es₂ : List Emission) :
    enterExitProj k (es₁ ++ es₂) = enterExitProj k es₁ ++ enterExitProj k es₂ :=
  List.filterMap_append es₁ es₂ _

lemma enterExitProj_single_other (k : Key) (e : Emission) (h : e.key ≠ some k) :
    enterExitProj k [e] = [] := by
  simp [enterExitProj, h]

lemma enterExitProj_mk_other (k k' : Key) (h : k' ≠ k) (ev : EventType)
    (loc : Option Loc) (d : Option ℤ) :
    enterExitProj k [mkEmission ev k' loc d] = [] := by
  apply enterExitProj_single_other
  rw [mkEmission_key]
  exact fun e => h (Option.some_injective _ e)

lemma enterExitProj_entered (k : Key) (loc : Loc) (d : Option ℤ) :
    enterExitProj k [mkEmission .key_entered k (some loc) d] = [true] := by
  simp [enterExitProj, mkEmission]

lemma enterExitProj_exited (k : Key) (loc : Option Loc) (d : Option ℤ) :
    enterExitProj k [mkEmission .key_exited k loc d] = [false] := by
  cases loc <;> simp [enterExitProj, mkEmission]

lemma enterExitProj_moved (k : Key) (loc : Loc) (d : Option ℤ) :
    enterExitProj k [mkEmission .key_moved k (some loc) d] = [] := by
  simp [enterExitProj, mkEmission]

lemma enterExitProj_ready (k : Key) :
    enterExitProj k [⟨.ready, none, none, none⟩] = [] := by
  simp [enterExitProj]

lemma noDupEnter_concat (l : List Bool) (b : Bool) (h : noDupEnter l = true)
    (hb : b = true → l.getLast?.getD false = false) :
    noDupEnter (l ++ [b]) = true := by
  induction l with
  | nil => cases b <;> rfl
  | cons a rest ih =>
    cases rest with
    | nil =>
      cases b with
      | false => cases a <;> rfl
      | true =>
        have ha : a = false := by simpa using hb rfl
        subst ha
        rfl
    | cons c rest' =>
      simp only [noDupEnter, Bool.and_eq_true, Bool.not_eq_eq_eq_not] at h ⊢
      refine ⟨?_, ?_⟩
      · exact (by simpa using h.1)
      · exact ih h.2 (fun e => by simpa [List.getLast?_cons_cons] using hb e)

/-! ## Handler-level lemmas -/

lemma mem_dedupFirstAux {q : GeohashRange} : ∀ {l : List GeohashRange}
    (seen : List GeohashRange), q ∈ l → q ∈ dedupFirstAux seen l ∨ q ∈ seen := by
  intro l
  induction l with
  | nil => intro seen h; cases h
  | cons x xs ih =>
    intro seen h
    rcases List.mem_cons.mp h with h | h
    · subst h
      by_cases hx : q ∈ seen
      · exact Or.inr hx
      · simp only [dedupFirstAux, if_neg hx]
        exact Or.inl (List.mem_cons.mpr (Or.inl rfl))
    · by_cases hx : x ∈ seen
      · simp only [dedupFirstAux, if_pos hx]
        exact ih seen h
      · simp only [dedupFirstAux, if_neg hx]
        rcases ih (x :: seen) h with h' | h'
        · exact Or.inl (List.mem_cons_of_mem _ h')
        · rcases List.mem_cons.mp h' with h' | h'
          · exact Or.inl (List.mem_cons.mpr (Or.inl h'))
          · exact Or.inr h'

lemma mem_dedupFirst {q : GeohashRange} {l : List GeohashRange}
    (h : q ∈ l) : q ∈ dedupFirst l := by
  rcases mem_dedupFirstAux [] h with h' | h'
  · exact h'
  · cases h'

lemma updateLocation_state (g : Geo) (st : GQState) (key : Key) (location : Loc) :
    (updateLocation g st key location).1 =
      { st with locations := setLoc st.locations key (newRowOf g st location) } := by
  simp only [updateLocation, newRowOf]
  split
  · rfl
  · split
    · rfl
    · split
      · rfl
      · rfl

lemma removedReadResolve_state (g : Geo) (st : GQState) (key : Key) (v : Option Loc) :
    (removedReadResolve g st key v).1 = st ∨
    (removedReadResolve g st key v).1 =
      { st with locations := delLoc st.locations key } := by
  simp only [removedReadResolve]
  split
  · split
    · split
      · exact Or.inr rfl
      · exact Or.inr rfl
    · exact Or.inr rfl
  · exact Or.inl rfl

lemma checkIfShouldFireReadyEvent_state (st : GQState) :
    (checkIfShouldFireReadyEvent st).1 =
      { st with numGeohashesToQueryProcessed := st.numGeohashesToQueryProcessed + 1,
                valueEventFired :=
                  decide (st.numGeohashesToQueryProcessed + 1 =
                    st.geohashesToQuery.length) } := by
  simp only [checkIfShouldFireReadyEvent]
  split
  · rfl
  · rfl

/-! ## Callback preservation and fan-out -/

lemma gqStep_callbacks_empty (g : Geo) (st : GQState) (a : GQAction)
    (h : st.callbacks = []) : (gqStep g st a).1.callbacks = [] := by
  cases a with
  | childAdded k v =>
    cases v with
    | none => exact h
    | some loc =>
      simp only [gqStep]
      split
      · rw [updateLocation_state]; exact h
      · exact h
  | childChanged k v =>
    cases v with
    | none => exact h
    | some loc =>
      simp only [gqStep]
      split
      · rw [updateLocation_state]; exact h
      · exact h
  | childRemoved k =>
    simp only [gqStep]
    split
    · exact h
    · exact h
  | readComplete k v =>
    simp only [gqStep]
    split
    · rcases removedReadResolve_state g
        { st with pendingReads := st.pendingReads.erase k } k v with h' | h' <;>
        rw [h'] <;> exact h
    · exact h
  | rangeCaughtUp =>
    simp only [gqStep]
    split
    · rw [checkIfShouldFireReadyEvent_state]; exact h
    · exact h
  | updateCriteria c r => exact h
  | cleanupTimerFire =>
    simp only [gqStep]
    split
    · exact h
    · exact h
  | intervalTick =>
    simp only [gqStep]
    split
    · exact h
    · exact h
  | cancel => rfl

lemma flatMap_fireInvocations_nil (es : List Emission) :
    es.flatMap (fireInvocations []) = [] := by
  induction es with
  | nil => rfl
  | cons e rest ih => simp [fireInvocations, ih]

lemma runInvs_empty_callbacks (g : Geo) (acts : List GQAction) :
    ∀ st : GQState, st.callbacks = [] → runInvs g st acts = [] := by
  induction acts with
  | nil => intro st _; rfl
  | cons a as ih =>
    intro st h
    simp only [runInvs]
    rw [h, flatMap_fireInvocations_nil, List.nil_append]
    exact ih _ (gqStep_callbacks_empty g st a h)

/-! ## Claim theorems (part 1) -/

/-- C8: after `cancel()` no registered callback of any event type is ever
invoked again for any subsequent store callback delivered to the
instance, point-read completions outstanding at cancellation included:
every subsequent action sequence produces an empty invocation list. -/
theorem c8_no_invocations_after_cancel (g : Geo) (st : GQState) (acts : List GQAction) :
    runInvs g (gqStep g st .cancel).1 acts = [] :=
  runInvs_empty_callbacks g acts _ rfl

/-- C9: an add or change notification whose raw stored value fails to
decode to a location leaves the whole engine state unchanged and fires no
event of any type. -/
theorem c9_malformed_value_skipped (g : Geo) (st : GQState) (k : Key) :
    gqStep g st (.childAdded k none) = (st, []) ∧
    gqStep g st (.childChanged k none) = (st, []) :=
  ⟨rfl, rfl⟩

/-- C10: the coverage-membership check `_geohashInSomeQuery` treats every
registered range as covering, the ones already flagged inactive
(`false`, pending teardown) included: a geohash within such a range's
bounds still counts as covered. -/
theorem c10_inactive_ranges_still_cover (ranges : List (GeohashRange × Bool))
    (q : GeohashRange) (gh : String) (hmem : (q, false) ∈ ranges)
    (h1 : strLe q.1 gh = true) (h2 : strLe gh q.2 = true) :
    geohashInSomeQuery ranges (some gh) = true := by
  simp only [geohashInSomeQuery, List.any_eq_true]
  exact ⟨(q, false), hmem, by simp [h1, h2]⟩

/-- Witness for C10 at a concrete registry holding only an inactive
range. -/
theorem c10_inactive_ranges_still_cover_witness :
    ((("a", "c"), false) ∈ ([(("a", "c"), false)] : List (GeohashRange × Bool))) ∧
    strLe "a" "b" = true ∧ strLe "b" "c" = true ∧
    geohashInSomeQuery [(("a", "c"), false)] (some "b") = true :=
  ⟨by decide, by decide, by decide,
    c10_inactive_ranges_still_cover _ ("a", "c") "b" (by decide) (by decide) (by decide)⟩

/-- C1 (code-bug evidence): `updateCriteria` with a new radius of 0 on an
engine with radius 2 and the in-query key "a" at distance 1 leaves the
radius at 2, fires no event at all — in particular no `key_exited` — and
leaves "a" in-query, because `_radius = newQueryCriteria.radius || _radius`
treats the falsy radius 0 as absent. -/
theorem c1_radius_zero_update_ignored :
    c1After.1.radius = 2 ∧ c1After.2 = [] ∧ keyIsInQuery c1After.1 "a" = true := by
  decide

/-- C7 counterexample: after a coverage recomputation the registry can
hold 27 ranges — more than 25 — with no cleanup pass scheduled and no
timeout pending, because the source checks the high-water mark before
registering the new ranges. -/
theorem c7_highwater_counterexample :
    c7State.currentGeohashesQueried.length = 27 ∧
    c7State.geohashCleanupScheduled = false ∧
    c7State.cleanupTimeout = none := by
  decide

/-- C7 as amended: the high-water check counts the ranges registered
before the newly required ranges are added; when that count exceeds 25
and no cleanup pass is pending, the recomputation sets the
cleanup-scheduled flag and schedules the cleanup after 10 time units. -/
theorem c7_highwater_amended (g : Geo) (st : GQState)
    (h1 : st.geohashCleanupScheduled = false)
    (h2 : st.currentGeohashesQueried.length > 25) :
    (listenForNewGeohashes g st).geohashCleanupScheduled = true ∧
    (listenForNewGeohashes g st).cleanupTimeout = some 10 := by
  simp [listenForNewGeohashes, h1, h2]

/-- Witness for the amended C7 at a state with 26 registered ranges. -/
theorem c7_highwater_amended_witness :
    st26.geohashCleanupScheduled = false ∧
    st26.currentGeohashesQueried.length > 25 ∧
    ((listenForNewGeohashes geoA st26).geohashCleanupScheduled = true ∧
     (listenForNewGeohashes geoA st26).cleanupTimeout = some 10) :=
  ⟨rfl, by decide, c7_highwater_amended geoA st26 rfl (by decide)⟩

/-! ## Ready-event accounting -/

lemma updateLocation_no_ready (g : Geo) (st : GQState) (key : Key) (location : Loc) :
    ∀ e ∈ (updateLocation g st key location).2, e.event ≠ EventType.ready := by
  intro e he
  simp only [updateLocation] at he
  split at he
  · simp only [List.mem_singleton] at he
    subst he
    rw [mkEmission_event]
    exact fun h => EventType.noConfusion h
  · split at he
    · simp only [List.mem_singleton] at he
      subst he
      rw [mkEmission_event]
      exact fun h => EventType.noConfusion h
    · split at he
      · simp only [List.mem_singleton] at he
        subst he
        rw [mkEmission_event]
        exact fun h => EventType.noConfusion h
      · cases he

lemma removedReadResolve_no_ready (g : Geo) (st : GQState) (key : Key) (v : Option Loc) :
    ∀ e ∈ (removedReadResolve g st key v).2, e.event ≠ EventType.ready := by
  intro e he
  simp only [removedReadResolve] at he
  split at he
  · split at he
    · split at he
      · simp only [List.mem_singleton] at he
        subst he
        rw [mkEmission_event]
        exact fun h => EventType.noConfusion h
      · cases he
    · cases he
  · cases he

lemma removedReadResolve_pendingCatchups (g : Geo) (st : GQState) (key : Key)
    (v : Option Loc) :
    (removedReadResolve g st key v).1.pendingCatchups = st.pendingCatchups := by
  rcases removedReadResolve_state g st key v with h | h <;> rw [h]

lemma gqStep_no_ready (g : Geo) (st : GQState) (a : GQAction)
    (hp : st.pendingCatchups = 0) (ha : isCriteriaUpdate a = false) :
    (gqStep g st a).1.pendingCatchups = 0 ∧
    ∀ e ∈ (gqStep g st a).2, e.event ≠ EventType.ready := by
  cases a with
  | childAdded k v =>
    cases v with
    | none => exact ⟨hp, by simp [gqStep]⟩
    | some loc =>
      simp only [gqStep]
      split
      · refine ⟨?_, updateLocation_no_ready g st k loc⟩
        rw [updateLocation_state]
        exact hp
      · exact ⟨hp, by simp⟩
  | childChanged k v =>
    cases v with
    | none => exact ⟨hp, by simp [gqStep]⟩
    | some loc =>
      simp only [gqStep]
      split
      · refine ⟨?_, updateLocation_no_ready g st k loc⟩
        rw [updateLocation_state]
        exact hp
      · exact ⟨hp, by simp⟩
  | childRemoved k =>
    simp only [gqStep]
    split
    · exact ⟨hp, by simp⟩
    · exact ⟨hp, by simp⟩
  | readComplete k v =>
    simp only [gqStep]
    split
    · refine ⟨?_, removedReadResolve_no_ready g _ k v⟩
      rw [removedReadResolve_pendingCatchups]
      exact hp
    · exact ⟨hp, by simp⟩
  | rangeCaughtUp =>
    simp only [gqStep, hp]
    exact ⟨hp, by simp⟩
  | updateCriteria c r => exact absurd ha (by simp [isCriteriaUpdate])
  | cleanupTimerFire =>
    simp only [gqStep]
    split
    · exact ⟨hp, by simp⟩
    · exact ⟨hp, by simp⟩
  | intervalTick =>
    simp only [gqStep]
    split
    · exact ⟨hp, by simp⟩
    · exact ⟨hp, by simp⟩
  | cancel => exact ⟨hp, by simp [gqStep]⟩

lemma runActs_no_ready (g : Geo) (acts : List GQAction)
    (hc : ∀ a ∈ acts, isCriteriaUpdate a = false) :
    ∀ st : GQState, st.pendingCatchups = 0 →
      readyCount (runActs g st acts).2 = 0 := by
  induction acts with
  | nil => intro st _; rfl
  | cons a as ih =>
    intro st hp
    have h1 := gqStep_no_ready g st a hp (hc a (List.mem_cons.mpr (Or.inl rfl)))
    have h2 := ih (fun a' ha' => hc a' (List.mem_cons_of_mem _ ha')) _ h1.1
    simp only [runActs, readyCount, List.countP_append]
    rw [List.countP_eq_zero.mpr (fun e he => by simpa using h1.2 e he)]
    simpa [readyCount] using h2

/-! ## Claim theorems (part 2) -/

/-- C2 (code-bug evidence): calling `updateCriteria` with the engine's
current center and radius on a fully caught-up engine produces no
emission at all — in particular zero `key_entered`/`key_exited` — but
also leaves the ready state unfired with no catch-up outstanding, so no
subsequent store activity short of another criteria change ever fires
`ready` again: the "nothing new to wait for" case is not special-cased. -/
theorem c2_same_criteria_no_fresh_ready :
    c2After.2 = [] ∧ c2After.1.valueEventFired = false ∧
    c2After.1.pendingCatchups = 0 ∧
    ∀ acts, (∀ a ∈ acts, isCriteriaUpdate a = false) →
      readyCount (runActs geoA c2After.1 acts).2 = 0 := by
  refine ⟨by decide, by decide, by decide, ?_⟩
  intro acts hc
  exact runActs_no_ready geoA acts hc c2After.1 (by decide)

/-- Witness for C2: a concrete post-update action sequence (a catch-up
signal, a new child, a sweep tick) fires no ready event. -/
theorem c2_same_criteria_no_fresh_ready_witness :
    readyCount (runActs geoA c2After.1
      [.rangeCaughtUp, .childAdded "b" (some (0, 1)), .intervalTick]).2 = 0 :=
  c2_same_criteria_no_fresh_ready.2.2.2 _ (by decide)

/-- C3 counterexample: a removal notification for the tracked in-query
key "k" followed by a point read that finds a location outside every
registered range fires `key_exited` with the read location `(2, 0)` and
its distance 2 — not with null location and null distance as claimed. -/
theorem c3_exited_location_not_null :
    c3Trace.2 = [⟨.key_entered, some "k", some (0, 0), some 0⟩,
                 ⟨.key_exited, some "k", some (2, 0), some 2⟩] := by
  decide

/-- C3 as amended: when the point read of a removal resolution finds the
key absent or a location not covered by any registered range, the
tracked row is deleted and, if it was in-query, `key_exited` fires with
the read result as payload — null location and null distance when the
key was absent, the read location and its distance when it was merely
uncovered; a covered read leaves the table unchanged and fires nothing,
and no event fires for a key that was absent or out-of-query. -/
theorem c3_removal_resolution (g : Geo) (st : GQState) (k : Key) (v : Option Loc)
    (hnd : keysNodup st) (hp : st.pendingReads.contains k = true) :
    (readCovered g st v = false →
      (gqStep g st (.readComplete k v)).1.locations = delLoc st.locations k ∧
      lookupLoc (gqStep g st (.readComplete k v)).1.locations k = none ∧
      (gqStep g st (.readComplete k v)).2 =
        (match lookupLoc st.locations k with
         | some info =>
           if info.isInQuery then
             [mkEmission .key_exited k v (v.map (fun l => g.distance l st.center))]
           else []
         | none => [])) ∧
    (readCovered g st v = true →
      (gqStep g st (.readComplete k v)).2 = [] ∧
      (gqStep g st (.readComplete k v)).1.locations = st.locations) := by
  constructor
  · intro hcov
    simp only [readCovered] at hcov
    simp only [gqStep, hp, if_pos, removedReadResolve, hcov, Bool.not_false, if_true]
    cases hlk : lookupLoc st.locations k with
    | none => simp [hlk, lookupLoc_delLoc_self hnd]
    | some info =>
      cases hq : info.isInQuery with
      | true => simp [hlk, hq, lookupLoc_delLoc_self hnd]
      | false => simp [hlk, hq, lookupLoc_delLoc_self hnd]
  · intro hcov
    simp only [readCovered] at hcov
    have hmem : k ∈ st.pendingReads := by simpa using hp
    simp [gqStep, hmem, removedReadResolve, hcov]

/-- Witness for the amended C3 at `c3WitnessState`: read result
`some (2, 0)` (geohash "zz", uncovered), key in-query. -/
theorem c3_removal_resolution_witness :
    keysNodup c3WitnessState ∧
    c3WitnessState.pendingReads.contains "k" = true ∧
    readCovered geoC c3WitnessState (some (2, 0)) = false ∧
    (gqStep geoC c3WitnessState (.readComplete "k" (some (2, 0)))).2 =
      (match lookupLoc c3WitnessState.locations "k" with
       | some info =>
         if info.isInQuery then
           [mkEmission .key_exited "k" (some (2, 0))
              ((some (2, 0) : Option Loc).map
                (fun l => geoC.distance l c3WitnessState.center))]
         else []
       | none => []) := by
  refine ⟨by decide, by decide, by decide, ?_⟩
  exact ((c3_removal_resolution geoC c3WitnessState "k" (some (2, 0))
    (by decide) (by decide)).1 (by decide)).2.2

/-! ## `on("key_entered")` replay lemmas -/

lemma enteredReplay_cb (cb : ℕ) (l : List (Key × LocInfo)) :
    ∀ inv ∈ enteredReplay cb l, inv.cb = cb := by
  intro inv h
  simp only [enteredReplay, List.mem_filterMap] at h
  obtain ⟨p, _, hp⟩ := h
  split at hp
  · cases hp
    rfl
  · cases hp

lemma enteredReplay_count_not_mem (cb : ℕ) (k : Key) (l : List (Key × LocInfo))
    (h : k ∉ l.map Prod.fst) :
    (enteredReplay cb l).countP (fun inv => decide (inv.key = some k)) = 0 := by
  induction l with
  | nil => rfl
  | cons p rest ih =>
    have h1 : p.1 ≠ k := fun e => h (by simp [e])
    have h2 : k ∉ rest.map Prod.fst := fun hm => h (by simp [hm])
    cases hq : p.2.isInQuery with
    | true =>
      simp only [enteredReplay, List.filterMap_cons, hq, if_pos, List.countP_cons]
      simp only [enteredReplay] at ih
      simpa [h1] using ih h2
    | false =>
      simp only [enteredReplay, List.filterMap_cons, hq, Bool.false_eq_true, if_neg]
      simp only [enteredReplay] at ih
      exact ih h2

lemma enteredReplay_count (cb : ℕ) (k : Key) (l : List (Key × LocInfo))
    (hnd : (l.map Prod.fst).Nodup) :
    (enteredReplay cb l).countP (fun inv => decide (inv.key = some k)) =
      match lookupLoc l k with
      | some info => if info.isInQuery then 1 else 0
      | none => 0 := by
  induction l with
  | nil => rfl
  | cons p rest ih =>
    simp only [List.map_cons, List.nodup_cons] at hnd
    by_cases hp : p.1 = k
    · have hrest : k ∉ rest.map Prod.fst := hp ▸ hnd.1
      have hz := enteredReplay_count_not_mem cb k rest hrest
      cases hq : p.2.isInQuery with
      | true =>
        simp only [enteredReplay, List.filterMap_cons, hq, if_pos, List.countP_cons,
          lookupLoc, hp]
        simp only [enteredReplay] at hz
        simp [hz, hp, hq]
      | false =>
        simp only [enteredReplay, List.filterMap_cons, hq, Bool.false_eq_true, if_neg,
          lookupLoc, hp]
        simp only [enteredReplay] at hz
        simp [hz, hq]
    · cases hq : p.2.isInQuery with
      | true =>
        simp only [enteredReplay, List.filterMap_cons, hq, if_pos, List.countP_cons,
          lookupLoc, hp]
        simp only [enteredReplay] at ih
        simpa [hp] using ih hnd.2
      | false =>
        simp only [enteredReplay, List.filterMap_cons, hq, Bool.false_eq_true, if_neg,
          lookupLoc, hp]
        simp only [enteredReplay] at ih
        simpa [hp] using ih hnd.2

/-- C6: registering a `key_entered` listener invokes only the new
callback, and it is invoked exactly once for each tracked key whose
`isInQuery` flag is true, never for a key whose flag is false or that is
untracked. -/
theorem c6_key_entered_replay (st : GQState) (cb : ℕ) (hnd : keysNodup st) :
    (∀ inv ∈ (onEvent st .key_entered cb).2, inv.cb = cb) ∧
    ∀ k : Key,
      (onEvent st .key_entered cb).2.countP (fun inv => decide (inv.key = some k)) =
        match lookupLoc st.locations k with
        | some info => if info.isInQuery then 1 else 0
        | none => 0 := by
  constructor
  · intro inv h
    exact enteredReplay_cb cb st.locations inv (by simpa [onEvent] using h)
  · intro k
    have h := enteredReplay_count cb k st.locations hnd
    simpa [onEvent] using h

/-- Witness for C6 at `c6State` (key "a" in-query, key "b" tracked but
out-of-query). -/
theorem c6_key_entered_replay_witness :
    keysNodup c6State ∧
    ((onEvent c6State .key_entered 7).2.countP
        (fun inv => decide (inv.key = some "a")) =
      match lookupLoc c6State.locations "a" with
      | some info => if info.isInQuery then 1 else 0
      | none => 0) ∧
    ((onEvent c6State .key_entered 7).2.countP
        (fun inv => decide (inv.key = some "b")) =
      match lookupLoc c6State.locations "b" with
      | some info => if info.isInQuery then 1 else 0
      | none => 0) :=
  ⟨by decide, (c6_key_entered_replay c6State 7 (by decide)).2 "a",
    (c6_key_entered_replay c6State 7 (by decide)).2 "b"⟩

/-! ## The location-table coherence invariant (C5) -/

lemma listen_locations (g : Geo) (s : GQState) :
    (listenForNewGeohashes g s).locations = s.locations := rfl

lemma listen_center (g : Geo) (s : GQState) :
    (listenForNewGeohashes g s).center = s.center := rfl

lemma listen_radius (g : Geo) (s : GQState) :
    (listenForNewGeohashes g s).radius = s.radius := rfl

lemma updateCriteriaFn_fst (g : Geo) (st : GQState) (c : Option Loc) (r : Option ℤ) :
    (updateCriteriaFn g st c r).1 =
      listenForNewGeohashes g
        { st with center := newCenterOf st c, radius := newRadiusOf st r,
                  locations := st.locations.map (fun p =>
                    (p.1, updRowCriteria g (newCenterOf st c) (newRadiusOf st r) p.2)),
                  valueEventFired := false } := rfl

lemma updateLocation_coherent (g : Geo) (st : GQState) (key : Key) (location : Loc)
    (hnd : keysNodup st) (hco : locationsCoherent g st) :
    keysNodup (updateLocation g st key location).1 ∧
    locationsCoherent g (updateLocation g st key location).1 := by
  rw [updateLocation_state]
  refine ⟨keysNodup_setLoc hnd, ?_⟩
  intro k info hlk
  by_cases hk : k = key
  · subst hk
    rw [show ({ st with locations := setLoc st.locations k (newRowOf g st location) } :
        GQState).locations = setLoc st.locations k (newRowOf g st location) from rfl,
      lookupLoc_setLoc_self] at hlk
    cases hlk
    exact ⟨rfl, rfl, rfl⟩
  · rw [show ({ st with locations := setLoc st.locations key (newRowOf g st location) } :
        GQState).locations = setLoc st.locations key (newRowOf g st location) from rfl,
      lookupLoc_setLoc_other _ _ _ _ hk] at hlk
    exact hco k info hlk

lemma lookupLoc_filter_some {l : List (Key × LocInfo)} {f : Key × LocInfo → Bool}
    {k : Key} {info : LocInfo} (hnd : (l.map Prod.fst).Nodup)
    (h : lookupLoc (l.filter f) k = some info) : lookupLoc l k = some info := by
  rw [lookupLoc_filter f k hnd] at h
  cases hlo : lookupLoc l k with
  | none =>
    rw [hlo] at h
    have h' : (none : Option LocInfo) = some info := h
    cases h'
  | some info' =>
    rw [hlo] at h
    have h' : (if f (k, info') = true then some info' else none) = some info := h
    by_cases hf : f (k, info') = true
    · rw [if_pos hf] at h'
      exact h'
    · rw [if_neg hf] at h'
      cases h'

lemma cleanup_coherent (g : Geo) (st : GQState)
    (hnd : keysNodup st) (hco : locationsCoherent g st) :
    keysNodup (cleanUpCurrentGeohashesQueried st) ∧
    locationsCoherent g (cleanUpCurrentGeohashesQueried st) := by
  refine ⟨keysNodup_filter _ hnd, ?_⟩
  intro k info hlk
  exact hco k info (lookupLoc_filter_some hnd hlk)

lemma removedReadResolve_coherent (g : Geo) (st : GQState) (key : Key) (v : Option Loc)
    (hnd : keysNodup st) (hco : locationsCoherent g st) :
    keysNodup (removedReadResolve g st key v).1 ∧
    locationsCoherent g (removedReadResolve g st key v).1 := by
  rcases removedReadResolve_state g st key v with h | h <;> rw [h]
  · exact ⟨hnd, hco⟩
  · refine ⟨keysNodup_delLoc hnd, ?_⟩
    intro k info hlk
    by_cases hk : k = key
    · subst hk
      rw [show ({ st with locations := delLoc st.locations k } : GQState).locations =
          delLoc st.locations k from rfl, lookupLoc_delLoc_self hnd] at hlk
      cases hlk
    · rw [show ({ st with locations := delLoc st.locations key } : GQState).locations =
          delLoc st.locations key from rfl, lookupLoc_delLoc_other _ _ _ hk] at hlk
      exact hco k info hlk

lemma remap_coherent (g : Geo) (st : GQState) (c' : Loc) (r' : ℤ)
    (hnd : keysNodup st) (hco : locationsCoherent g st) :
    keysNodup { st with
                  center := c', radius := r',
                  locations := st.locations.map
                    (fun p => (p.1, updRowCriteria g c' r' p.2)),
                  valueEventFired := false } ∧
    locationsCoherent g { st with
                            center := c', radius := r',
                            locations := st.locations.map
                              (fun p => (p.1, updRowCriteria g c' r' p.2)),
                            valueEventFired := false } := by
  constructor
  · show ((st.locations.map (fun p => (p.1, updRowCriteria g c' r' p.2))).map
      Prod.fst).Nodup
    rw [keys_map_snd]
    exact hnd
  · intro k info hlk
    have hlk' : (lookupLoc st.locations k).map (updRowCriteria g c' r') = some info := by
      rw [← lookupLoc_map_snd]
      exact hlk
    cases hlo : lookupLoc st.locations k with
    | none => rw [hlo] at hlk'; cases hlk'
    | some info' =>
      rw [hlo] at hlk'
      cases hlk'
      exact ⟨rfl, rfl, (hco k info' hlo).2.2⟩

lemma updateCriteriaFn_coherent (g : Geo) (st : GQState) (c : Option Loc) (r : Option ℤ)
    (hnd : keysNodup st) (hco : locationsCoherent g st) :
    keysNodup (updateCriteriaFn g st c r).1 ∧
    locationsCoherent g (updateCriteriaFn g st c r).1 := by
  rw [updateCriteriaFn_fst]
  exact remap_coherent g st (newCenterOf st c) (newRadiusOf st r) hnd hco

lemma gqStep_coherent (g : Geo) (st : GQState) (a : GQAction)
    (hnd : keysNodup st) (hco : locationsCoherent g st) :
    keysNodup (gqStep g st a).1 ∧ locationsCoherent g (gqStep g st a).1 := by
  cases a with
  | childAdded k v =>
    cases v with
    | none => exact ⟨hnd, hco⟩
    | some loc =>
      simp only [gqStep]
      split
      · exact updateLocation_coherent g st k loc hnd hco
      · exact ⟨hnd, hco⟩
  | childChanged k v =>
    cases v with
    | none => exact ⟨hnd, hco⟩
    | some loc =>
      simp only [gqStep]
      split
      · exact updateLocation_coherent g st k loc hnd hco
      · exact ⟨hnd, hco⟩
  | childRemoved k =>
    simp only [gqStep]
    split
    · exact ⟨hnd, hco⟩
    · exact ⟨hnd, hco⟩
  | readComplete k v =>
    simp only [gqStep]
    split
    · exact removedReadResolve_coherent g _ k v hnd hco
    · exact ⟨hnd, hco⟩
  | rangeCaughtUp =>
    simp only [gqStep]
    split
    · rw [checkIfShouldFireReadyEvent_state]
      exact ⟨hnd, hco⟩
    · exact ⟨hnd, hco⟩
  | updateCriteria c r => exact updateCriteriaFn_coherent g st c r hnd hco
  | cleanupTimerFire =>
    simp only [gqStep]
    split
    · exact cleanup_coherent g st hnd hco
    · exact ⟨hnd, hco⟩
  | intervalTick =>
    simp only [gqStep]
    split
    · exact cleanup_coherent g st hnd hco
    · exact ⟨hnd, hco⟩
  | cancel =>
    refine ⟨by simp [gqStep, cancelFn, keysNodup], ?_⟩
    intro k info hlk
    cases hlk

lemma runActs_coherent (g : Geo) (acts : List GQAction) :
    ∀ st : GQState, keysNodup st → locationsCoherent g st →
      keysNodup (runActs g st acts).1 ∧ locationsCoherent g (runActs g st acts).1 := by
  induction acts with
  | nil => intro st hnd hco; exact ⟨hnd, hco⟩
  | cons a as ih =>
    intro st hnd hco
    have h := gqStep_coherent g st a hnd hco
    exact ih _ h.1 h.2

lemma initState_nodup (g : Geo) (c : Loc) (r : ℤ) : keysNodup (initState g c r) :=
  List.nodup_nil

lemma initState_coherent (g : Geo) (c : Loc) (r : ℤ) :
    locationsCoherent g (initState g c r) := by
  intro k info hlk
  cases hlk

/-- C5: after any sequence of operations, every tracked key's stored
record satisfies `isInQuery = (distanceFromCenter ≤ current radius)`. -/
theorem c5_isInQuery_invariant (g : Geo) (c : Loc) (r : ℤ) (acts : List GQAction)
    (k : Key) (info : LocInfo)
    (h : lookupLoc (runActs g (initState g c r) acts).1.locations k = some info) :
    info.isInQuery =
      decide (info.distanceFromCenter ≤ (runActs g (initState g c r) acts).1.radius) :=
  (((runActs_coherent g acts (initState g c r) (initState_nodup g c r)
      (initState_coherent g c r)).2) k info h).2.1

/-- Witness for C5 after one child insertion. -/
theorem c5_isInQuery_invariant_witness :
    lookupLoc (runActs geoA (initState geoA (0, 0) 2)
        [.childAdded "a" (some (1, 0))]).1.locations "a" =
      some ⟨(1, 0), 1, true, "m"⟩ ∧
    (⟨(1, 0), 1, true, "m"⟩ : LocInfo).isInQuery =
      decide ((⟨(1, 0), 1, true, "m"⟩ : LocInfo).distanceFromCenter ≤
        (runActs geoA (initState geoA (0, 0) 2)
          [.childAdded "a" (some (1, 0))]).1.radius) :=
  ⟨by decide, c5_isInQuery_invariant geoA (0, 0) 2 _ "a" _ (by decide)⟩

/-! ## Coverage registration (C4 machinery) -/

lemma listen_covRegistered (g : Geo) (s : GQState) :
    covRegistered g (listenForNewGeohashes g s) := by
  intro q hq
  have hq' : q ∈ dedupFirst (g.geohashQueries s.center (s.radius * 1000)) := hq
  show (q, true) ∈ (listenForNewGeohashes g s).currentGeohashesQueried
  simp only [listenForNewGeohashes]
  rw [List.mem_append]
  by_cases hreg : s.currentGeohashesQueried.any (fun p => decide (p.1 = q)) = true
  · left
    rw [List.any_eq_true] at hreg
    obtain ⟨p, hp, hpq⟩ := hreg
    have hpq' : p.1 = q := by simpa using hpq
    refine List.mem_map.mpr ⟨p, hp, ?_⟩
    rw [hpq', decide_eq_true hq']
  · right
    refine List.mem_map.mpr ⟨q, ?_, rfl⟩
    rw [List.mem_filter]
    refine ⟨hq', ?_⟩
    rw [Bool.not_eq_true] at hreg
    rw [hreg]
    rfl

lemma cleanup_covRegistered (g : Geo) (st : GQState) (hcov : covRegistered g st) :
    covRegistered g (cleanUpCurrentGeohashesQueried st) := by
  intro q hq
  have h : (q, true) ∈ st.currentGeohashesQueried := hcov q hq
  show (q, true) ∈ (cleanUpCurrentGeohashesQueried st).currentGeohashesQueried
  exact List.mem_filter.mpr ⟨h, rfl⟩

lemma gqStep_covRegistered (g : Geo) (st : GQState) (a : GQAction)
    (ha : a ≠ GQAction.cancel) (hcov : covRegistered g st) :
    covRegistered g (gqStep g st a).1 := by
  cases a with
  | childAdded k v =>
    cases v with
    | none => exact hcov
    | some loc =>
      simp only [gqStep]
      split
      · rw [updateLocation_state]; exact hcov
      · exact hcov
  | childChanged k v =>
    cases v with
    | none => exact hcov
    | some loc =>
      simp only [gqStep]
      split
      · rw [updateLocation_state]; exact hcov
      · exact hcov
  | childRemoved k =>
    simp only [gqStep]
    split
    · exact hcov
    · exact hcov
  | readComplete k v =>
    simp only [gqStep]
    split
    · rcases removedReadResolve_state g
        { st with pendingReads := st.pendingReads.erase k } k v with h | h <;> rw [h] <;>
        exact hcov
    · exact hcov
  | rangeCaughtUp =>
    simp only [gqStep]
    split
    · rw [checkIfShouldFireReadyEvent_state]; exact hcov
    · exact hcov
  | updateCriteria c r =>
    show covRegistered g (updateCriteriaFn g st c r).1
    rw [updateCriteriaFn_fst]
    exact listen_covRegistered g _
  | cleanupTimerFire =>
    simp only [gqStep]
    split
    · exact cleanup_covRegistered g st hcov
    · exact hcov
  | intervalTick =>
    simp only [gqStep]
    split
    · exact cleanup_covRegistered g st hcov
    · exact hcov
  | cancel => exact absurd rfl ha

lemma cleanup_keyIsInQuery (g : Geo) (st : GQState) (hg : CovSound g)
    (hnd : keysNodup st) (hco : locationsCoherent g st) (hcov : covRegistered g st)
    (k : Key) :
    keyIsInQuery (cleanUpCurrentGeohashesQueried st) k = keyIsInQuery st k := by
  unfold keyIsInQuery
  have hloc : (cleanUpCurrentGeohashesQueried st).locations =
      st.locations.filter (fun p => geohashInSomeQuery
        (st.currentGeohashesQueried.filter (fun p => p.2)) (some p.2.geohash)) := rfl
  rw [hloc, lookupLoc_filter _ _ hnd]
  cases hlo : lookupLoc st.locations k with
  | none => rfl
  | some info =>
    have hkeepOfIn : info.isInQuery = true →
        geohashInSomeQuery (st.currentGeohashesQueried.filter (fun p => p.2))
          (some info.geohash) = true := by
      intro hq
      obtain ⟨hd, hi, hgh⟩ := hco k info hlo
      have hle : info.distanceFromCenter ≤ st.radius :=
        of_decide_eq_true (hi.symm.trans hq)
      have hdist : g.distance info.location st.center ≤ st.radius := hd ▸ hle
      obtain ⟨qr, hqr, hb1, hb2⟩ := hg st.center st.radius info.location hdist
      have hreg : (qr, true) ∈ st.currentGeohashesQueried :=
        hcov qr (mem_dedupFirst hqr)
      simp only [geohashInSomeQuery, List.any_eq_true]
      refine ⟨(qr, true), List.mem_filter.mpr ⟨hreg, rfl⟩, ?_⟩
      rw [hgh]
      simp [hb1, hb2]
    show (match (if geohashInSomeQuery
        (st.currentGeohashesQueried.filter (fun p => p.2)) (some info.geohash) = true
        then some info else none : Option LocInfo) with
      | some i => i.isInQuery
      | none => false) = info.isInQuery
    by_cases hkeep : geohashInSomeQuery
        (st.currentGeohashesQueried.filter (fun p => p.2)) (some info.geohash) = true
    · rw [if_pos hkeep]
    · rw [if_neg hkeep]
      cases hq : info.isInQuery with
      | false => rfl
      | true => exact absurd (hkeepOfIn hq) hkeep

/-! ## Per-step event shapes (C4 machinery) -/

lemma keyIsInQuery_updateLocation_self (g : Geo) (st : GQState) (key : Key)
    (location : Loc) :
    keyIsInQuery (updateLocation g st key location).1 key =
      decide (g.distance location st.center ≤ st.radius) := by
  rw [updateLocation_state]
  unfold keyIsInQuery
  rw [show ({ st with locations := setLoc st.locations key (newRowOf g st location) } :
      GQState).locations = setLoc st.locations key (newRowOf g st location) from rfl,
    lookupLoc_setLoc_self]
  rfl

lemma keyIsInQuery_updateLocation_other (g : Geo) (st : GQState) (key : Key)
    (location : Loc) (k : Key) (hk : k ≠ key) :
    keyIsInQuery (updateLocation g st key location).1 k = keyIsInQuery st k := by
  rw [updateLocation_state]
  unfold keyIsInQuery
  rw [show ({ st with locations := setLoc st.locations key (newRowOf g st location) } :
      GQState).locations = setLoc st.locations key (newRowOf g st location) from rfl,
    lookupLoc_setLoc_other _ _ _ _ hk]

lemma updateLocation_branches (g : Geo) (st : GQState) (key : Key) (location : Loc) :
    (decide (g.distance location st.center ≤ st.radius) = true ∧
      keyIsInQuery st key = false ∧
      (updateLocation g st key location).2 =
        [mkEmission .key_entered key (some location)
          (some (g.distance location st.center))]) ∨
    (decide (g.distance location st.center ≤ st.radius) = true ∧
      keyIsInQuery st key = true ∧
      ((updateLocation g st key location).2 = [] ∨
       (updateLocation g st key location).2 =
         [mkEmission .key_moved key (some location)
           (some (g.distance location st.center))])) ∨
    (decide (g.distance location st.center ≤ st.radius) = false ∧
      keyIsInQuery st key = true ∧
      (updateLocation g st key location).2 =
        [mkEmission .key_exited key (some location)
          (some (g.distance location st.center))]) ∨
    (decide (g.distance location st.center ≤ st.radius) = false ∧
      keyIsInQuery st key = false ∧ (updateLocation g st key location).2 = []) := by
  simp only [updateLocation]
  split
  case isTrue h =>
    rw [Bool.and_eq_true, Bool.not_eq_eq_eq_not, Bool.not_true] at h
    exact Or.inl ⟨h.1, h.2, rfl⟩
  case isFalse h1 =>
    split
    case isTrue h2 =>
      rw [Bool.and_eq_true] at h2
      have hin := h2.1
      have hw : keyIsInQuery st key = true := by
        cases hw : keyIsInQuery st key with
        | true => rfl
        | false => exact absurd (by rw [hin, hw]; rfl) h1
      exact Or.inr (Or.inl ⟨hin, hw, Or.inr rfl⟩)
    case isFalse h2 =>
      split
      case isTrue h3 =>
        rw [Bool.and_eq_true, Bool.not_eq_eq_eq_not, Bool.not_true] at h3
        exact Or.inr (Or.inr (Or.inl ⟨h3.1, h3.2, rfl⟩))
      case isFalse h3 =>
        cases hin : decide (g.distance location st.center ≤ st.radius) with
        | true =>
          have hw : keyIsInQuery st key = true := by
            cases hw : keyIsInQuery st key with
            | true => rfl
            | false => exact absurd (by rw [hin, hw]; rfl) h1
          exact Or.inr (Or.inl ⟨rfl, hw, Or.inl rfl⟩)
        | false =>
          have hw : keyIsInQuery st key = false := by
            cases hw : keyIsInQuery st key with
            | false => rfl
            | true => exact absurd (by rw [hin, hw]; rfl) h3
          exact Or.inr (Or.inr (Or.inr ⟨rfl, hw, rfl⟩))

lemma updateLocation_eventsOK (g : Geo) (st : GQState) (key : Key) (location : Loc) :
    stepEventsOK st (updateLocation g st key location).1
      (updateLocation g st key location).2 := by
  intro k
  by_cases hk : k = key
  · subst hk
    rcases updateLocation_branches g st k location with
      ⟨hin, hw, hes⟩ | ⟨hin, hw, hes | hes⟩ | ⟨hin, hw, hes⟩ | ⟨hin, hw, hes⟩
    · right; left
      rw [hes, enterExitProj_entered]
      exact ⟨rfl, hw, by rw [keyIsInQuery_updateLocation_self, hin]⟩
    · left
      rw [hes, enterExitProj_nil]
      exact ⟨rfl, by rw [keyIsInQuery_updateLocation_self, hin, hw]⟩
    · left
      rw [hes, enterExitProj_moved]
      exact ⟨rfl, by rw [keyIsInQuery_updateLocation_self, hin, hw]⟩
    · right; right
      rw [hes, enterExitProj_exited]
      exact ⟨rfl, by rw [keyIsInQuery_updateLocation_self, hin]⟩
    · left
      rw [hes, enterExitProj_nil]
      exact ⟨rfl, by rw [keyIsInQuery_updateLocation_self, hin, hw]⟩
  · left
    refine ⟨?_, keyIsInQuery_updateLocation_other g st key location k hk⟩
    rcases updateLocation_branches g st key location with
      ⟨_, _, hes⟩ | ⟨_, _, hes | hes⟩ | ⟨_, _, hes⟩ | ⟨_, _, hes⟩ <;> rw [hes]
    · exact enterExitProj_mk_other k key (fun e => hk e.symm) _ _ _
    · rfl
    · exact enterExitProj_mk_other k key (fun e => hk e.symm) _ _ _
    · exact enterExitProj_mk_other k key (fun e => hk e.symm) _ _ _
    · rfl

lemma keyIsInQuery_delLoc_self (st : GQState) (key : Key) (hnd : keysNodup st) :
    keyIsInQuery { st with locations := delLoc st.locations key } key = false := by
  unfold keyIsInQuery
  rw [show ({ st with locations := delLoc st.locations key } : GQState).locations =
      delLoc st.locations key from rfl, lookupLoc_delLoc_self hnd]

lemma keyIsInQuery_delLoc_other (st : GQState) (key k : Key) (hk : k ≠ key) :
    keyIsInQuery { st with locations := delLoc st.locations key } k =
      keyIsInQuery st k := by
  unfold keyIsInQuery
  rw [show ({ st with locations := delLoc st.locations key } : GQState).locations =
      delLoc st.locations key from rfl, lookupLoc_delLoc_other _ _ _ hk]

lemma removedReadResolve_eventsOK (g : Geo) (st : GQState) (key : Key) (v : Option Loc)
    (hnd : keysNodup st) :
    stepEventsOK st (removedReadResolve g st key v).1
      (removedReadResolve g st key v).2 := by
  intro k
  cases hcov : geohashInSomeQuery st.currentGeohashesQueried (v.map g.encodeGeohash) with
  | true =>
    have hEq : removedReadResolve g st key v = (st, []) := by
      simp [removedReadResolve, hcov]
    rw [hEq]
    exact Or.inl ⟨rfl, rfl⟩
  | false =>
    cases hlo : lookupLoc st.locations key with
    | none =>
      have hEq : removedReadResolve g st key v =
          ({ st with locations := delLoc st.locations key }, []) := by
        simp [removedReadResolve, hcov, hlo]
      rw [hEq]
      left
      refine ⟨rfl, ?_⟩
      by_cases hk : k = key
      · subst hk
        rw [keyIsInQuery_delLoc_self st k hnd]
        unfold keyIsInQuery
        rw [hlo]
      · exact keyIsInQuery_delLoc_other st key k hk
    | some info =>
      cases hq : info.isInQuery with
      | true =>
        have hEq : removedReadResolve g st key v =
            ({ st with locations := delLoc st.locations key },
             [mkEmission .key_exited key v (v.map (fun l => g.distance l st.center))]) := by
          simp [removedReadResolve, hcov, hlo, hq]
        rw [hEq]
        by_cases hk : k = key
        · subst hk
          right; right
          exact ⟨enterExitProj_exited k v _, keyIsInQuery_delLoc_self st k hnd⟩
        · left
          exact ⟨enterExitProj_mk_other k key (fun e => hk e.symm) _ _ _,
            keyIsInQuery_delLoc_other st key k hk⟩
      | false =>
        have hEq : removedReadResolve g st key v =
            ({ st with locations := delLoc st.locations key }, []) := by
          simp [removedReadResolve, hcov, hlo, hq]
        rw [hEq]
        left
        refine ⟨rfl, ?_⟩
        by_cases hk : k = key
        · subst hk
          rw [keyIsInQuery_delLoc_self st k hnd]
          unfold keyIsInQuery
          rw [hlo]
          exact hq.symm
        · exact keyIsInQuery_delLoc_other st key k hk

lemma emissionsForCriteria_key (g : Geo) (c' : Loc) (r' : ℤ)
    (p : Key × LocInfo) (e : Emission)
    (h : emissionsForCriteria g c' r' p = some e) : e.key = some p.1 := by
  simp only [emissionsForCriteria] at h
  split at h
  · cases h
    exact mkEmission_key _ _ _ _
  · split at h
    · cases h
      exact mkEmission_key _ _ _ _
    · cases h

lemma proj_filterMap_not_mem (k : Key) (l : List (Key × LocInfo))
    (F : Key × LocInfo → Option Emission)
    (hF : ∀ p e, F p = some e → e.key = some p.1)
    (h : k ∉ l.map Prod.fst) :
    enterExitProj k (l.filterMap F) = [] := by
  induction l with
  | nil => rfl
  | cons p rest ih =>
    have h1 : p.1 ≠ k := fun e => h (by simp [e])
    have h2 : k ∉ rest.map Prod.fst := fun hm => h (by simp [hm])
    rw [List.filterMap_cons]
    cases hFp : F p with
    | none => exact ih h2
    | some e =>
      show enterExitProj k ([e] ++ rest.filterMap F) = []
      rw [enterExitProj_append, ih h2, List.append_nil]
      exact enterExitProj_single_other k e (by
        rw [hF p e hFp]
        exact fun hh => h1 (Option.some_injective _ hh))

lemma proj_filterMap_mem (k : Key) (info : LocInfo) (l : List (Key × LocInfo))
    (F : Key × LocInfo → Option Emission)
    (hF : ∀ p e, F p = some e → e.key = some p.1)
    (hnd : (l.map Prod.fst).Nodup)
    (hlo : lookupLoc l k = some info) :
    enterExitProj k (l.filterMap F) = enterExitProj k (F (k, info)).toList := by
  induction l with
  | nil => cases hlo
  | cons p rest ih =>
    simp only [List.map_cons, List.nodup_cons] at hnd
    rw [List.filterMap_cons]
    by_cases hp : p.1 = k
    · rw [lookupLoc, if_pos hp] at hlo
      have hp2 : p.2 = info := Option.some_injective _ hlo
      have hpe : p = (k, info) := by
        calc p = (p.1, p.2) := rfl
        _ = (k, info) := by rw [hp, hp2]
      have hrest : enterExitProj k (rest.filterMap F) = [] :=
        proj_filterMap_not_mem k rest F hF (hp ▸ hnd.1)
      cases hFp : F p with
      | none =>
        rw [← hpe, hFp]
        exact hrest
      | some e =>
        show enterExitProj k ([e] ++ rest.filterMap F) =
          enterExitProj k (F (k, info)).toList
        rw [enterExitProj_append, hrest, List.append_nil, ← hpe, hFp]
        rfl
    · rw [lookupLoc, if_neg hp] at hlo
      cases hFp : F p with
      | none => exact ih hnd.2 hlo
      | some e =>
        show enterExitProj k ([e] ++ rest.filterMap F) =
          enterExitProj k (F (k, info)).toList
        rw [enterExitProj_append,
          enterExitProj_single_other k e (by
            rw [hF p e hFp]
            exact fun hh => hp (Option.some_injective _ hh)),
          List.nil_append]
        exact ih hnd.2 hlo

lemma proj_emissionsForCriteria (g : Geo) (c' : Loc) (r' : ℤ) (k : Key) (info : LocInfo) :
    (info.isInQuery = true → (updRowCriteria g c' r' info).isInQuery = false →
      enterExitProj k ((emissionsForCriteria g c' r' (k, info)).toList) = [false]) ∧
    (info.isInQuery = false → (updRowCriteria g c' r' info).isInQuery = true →
      enterExitProj k ((emissionsForCriteria g c' r' (k, info)).toList) = [true]) ∧
    (info.isInQuery = (updRowCriteria g c' r' info).isInQuery →
      enterExitProj k ((emissionsForCriteria g c' r' (k, info)).toList) = []) := by
  refine ⟨?_, ?_, ?_⟩
  · intro h1 h2
    simp [emissionsForCriteria, h1, h2, enterExitProj_exited]
  · intro h1 h2
    simp [emissionsForCriteria, h1, h2, enterExitProj_entered]
  · intro hEq
    cases hw : info.isInQuery with
    | true =>
      have hnew : (updRowCriteria g c' r' info).isInQuery = true := by rw [← hEq, hw]
      simp [emissionsForCriteria, hw, hnew, enterExitProj_nil]
    | false =>
      have hnew : (updRowCriteria g c' r' info).isInQuery = false := by rw [← hEq, hw]
      simp [emissionsForCriteria, hw, hnew, enterExitProj_nil]

lemma keyIsInQuery_updateCriteriaFn (g : Geo) (st : GQState) (c : Option Loc)
    (r : Option ℤ) (k : Key) :
    keyIsInQuery (updateCriteriaFn g st c r).1 k =
      match lookupLoc st.locations k with
      | some info =>
          (updRowCriteria g (newCenterOf st c) (newRadiusOf st r) info).isInQuery
      | none => false := by
  unfold keyIsInQuery
  have hloc : (updateCriteriaFn g st c r).1.locations =
      st.locations.map (fun p =>
        (p.1, updRowCriteria g (newCenterOf st c) (newRadiusOf st r) p.2)) := rfl
  rw [hloc, lookupLoc_map_snd]
  cases hlo : lookupLoc st.locations k with
  | none => rfl
  | some info => rfl

lemma updateCriteriaFn_eventsOK (g : Geo) (st : GQState) (c : Option Loc)
    (r : Option ℤ) (hnd : keysNodup st) :
    stepEventsOK st (updateCriteriaFn g st c r).1 (updateCriteriaFn g st c r).2 := by
  intro k
  have hes : (updateCriteriaFn g st c r).2 =
      st.locations.filterMap
        (emissionsForCriteria g (newCenterOf st c) (newRadiusOf st r)) := rfl
  have hF : ∀ p e, emissionsForCriteria g (newCenterOf st c) (newRadiusOf st r) p =
      some e → e.key = some p.1 := emissionsForCriteria_key g _ _
  cases hlo : lookupLoc st.locations k with
  | none =>
    left
    constructor
    · rw [hes]
      exact proj_filterMap_not_mem k st.locations _ hF (lookupLoc_eq_none_iff.mp hlo)
    · rw [keyIsInQuery_updateCriteriaFn, hlo]
      simp [keyIsInQuery, hlo]
  | some info =>
    have hproj : enterExitProj k (updateCriteriaFn g st c r).2 =
        enterExitProj k ((emissionsForCriteria g (newCenterOf st c) (newRadiusOf st r)
          (k, info)).toList) := by
      rw [hes]
      exact proj_filterMap_mem k info st.locations _ hF hnd hlo
    have hpre : keyIsInQuery st k = info.isInQuery := by
      simp [keyIsInQuery, hlo]
    have hpost : keyIsInQuery (updateCriteriaFn g st c r).1 k =
        (updRowCriteria g (newCenterOf st c) (newRadiusOf st r) info).isInQuery := by
      rw [keyIsInQuery_updateCriteriaFn, hlo]
    cases hw : info.isInQuery with
    | true =>
      cases hnew : (updRowCriteria g (newCenterOf st c)
          (newRadiusOf st r) info).isInQuery with
      | false =>
        right; right
        refine ⟨?_, by rw [hpost, hnew]⟩
        rw [hproj]
        exact (proj_emissionsForCriteria g _ _ k info).1 hw hnew
      | true =>
        left
        refine ⟨?_, by rw [hpost, hnew, hpre, hw]⟩
        rw [hproj]
        exact (proj_emissionsForCriteria g _ _ k info).2.2 (hw.trans hnew.symm)
    | false =>
      cases hnew : (updRowCriteria g (newCenterOf st c)
          (newRadiusOf st r) info).isInQuery with
      | true =>
        right; left
        refine ⟨?_, by rw [hpre, hw], by rw [hpost, hnew]⟩
        rw [hproj]
        exact (proj_emissionsForCriteria g _ _ k info).2.1 hw hnew
      | false =>
        left
        refine ⟨?_, by rw [hpost, hnew, hpre, hw]⟩
        rw [hproj]
        exact (proj_emissionsForCriteria g _ _ k info).2.2 (hw.trans hnew.symm)

/-! ## The per-step and whole-run trace lemmas (C4) -/

lemma gqStep_eventsOK (g : Geo) (st : GQState) (a : GQAction) (hg : CovSound g)
    (ha : a ≠ GQAction.cancel) (hnd : keysNodup st) (hco : locationsCoherent g st)
    (hcov : covRegistered g st) :
    stepEventsOK st (gqStep g st a).1 (gqStep g st a).2 := by
  cases a with
  | childAdded k v =>
    cases v with
    | none => exact fun k' => Or.inl ⟨rfl, rfl⟩
    | some loc =>
      simp only [gqStep]
      split
      · exact updateLocation_eventsOK g st k loc
      · exact fun k' => Or.inl ⟨rfl, rfl⟩
  | childChanged k v =>
    cases v with
    | none => exact fun k' => Or.inl ⟨rfl, rfl⟩
    | some loc =>
      simp only [gqStep]
      split
      · exact updateLocation_eventsOK g st k loc
      · exact fun k' => Or.inl ⟨rfl, rfl⟩
  | childRemoved k =>
    simp only [gqStep]
    split
    · exact fun k' => Or.inl ⟨rfl, rfl⟩
    · exact fun k' => Or.inl ⟨rfl, rfl⟩
  | readComplete k v =>
    simp only [gqStep]
    split
    · exact removedReadResolve_eventsOK g
        { st with pendingReads := st.pendingReads.erase k } k v hnd
    · exact fun k' => Or.inl ⟨rfl, rfl⟩
  | rangeCaughtUp =>
    simp only [gqStep]
    split
    · intro k'
      left
      simp only [checkIfShouldFireReadyEvent]
      split
      · exact ⟨enterExitProj_ready k', rfl⟩
      · exact ⟨rfl, rfl⟩
    · exact fun k' => Or.inl ⟨rfl, rfl⟩
  | updateCriteria c r => exact updateCriteriaFn_eventsOK g st c r hnd
  | cleanupTimerFire =>
    simp only [gqStep]
    split
    · exact fun k' => Or.inl ⟨rfl, cleanup_keyIsInQuery g st hg hnd hco hcov k'⟩
    · exact fun k' => Or.inl ⟨rfl, rfl⟩
  | intervalTick =>
    simp only [gqStep]
    split
    · exact fun k' => Or.inl ⟨rfl, cleanup_keyIsInQuery g st hg hnd hco hcov k'⟩
    · exact fun k' => Or.inl ⟨rfl, rfl⟩
  | cancel => exact absurd rfl ha

lemma gqStep_good (g : Geo) (st : GQState) (a : GQAction) (ha : a ≠ GQAction.cancel)
    (h : GoodState g st) : GoodState g (gqStep g st a).1 :=
  ⟨(gqStep_coherent g st a h.1 h.2.1).1, (gqStep_coherent g st a h.1 h.2.1).2,
    gqStep_covRegistered g st a ha h.2.2⟩

lemma traceMatches_append (st st' : GQState) (es new : List Emission)
    (ht : traceMatches st es) (hstep : stepEventsOK st st' new) :
    traceMatches st' (es ++ new) := by
  intro k
  obtain ⟨h1, h2⟩ := ht k
  rw [enterExitProj_append]
  rcases hstep k with ⟨hp, he⟩ | ⟨hp, hpre, hpost⟩ | ⟨hp, hpost⟩
  · rw [hp, List.append_nil]
    exact ⟨h1, by rw [h2, he]⟩
  · rw [hp]
    constructor
    · exact noDupEnter_concat _ _ h1 (fun _ => by rw [h2, hpre])
    · rw [List.getLast?_concat]
      simp [hpost]
  · rw [hp]
    constructor
    · exact noDupEnter_concat _ _ h1 (fun hb => by cases hb)
    · rw [List.getLast?_concat]
      simp [hpost]

lemma runActs_traceMatches (g : Geo) (hg : CovSound g) (acts : List GQAction) :
    ∀ st es, (∀ a ∈ acts, a ≠ GQAction.cancel) → GoodState g st → traceMatches st es →
      GoodState g (runActs g st acts).1 ∧
      traceMatches (runActs g st acts).1 (es ++ (runActs g st acts).2) := by
  induction acts with
  | nil =>
    intro st es _ hGood ht
    refine ⟨hGood, ?_⟩
    rw [show (runActs g st []).2 = [] from rfl, List.append_nil]
    exact ht
  | cons a as ih =>
    intro st es hnc hGood ht
    have ha : a ≠ GQAction.cancel := hnc a (List.mem_cons.mpr (Or.inl rfl))
    have hstep := gqStep_eventsOK g st a hg ha hGood.1 hGood.2.1 hGood.2.2
    have hGood' := gqStep_good g st a ha hGood
    have ht' := traceMatches_append st (gqStep g st a).1 es (gqStep g st a).2 ht hstep
    have hrec := ih (gqStep g st a).1 (es ++ (gqStep g st a).2)
      (fun a' h => hnc a' (List.mem_cons_of_mem _ h)) hGood' ht'
    refine ⟨hrec.1, ?_⟩
    have h2 := hrec.2
    rw [List.append_assoc] at h2
    exact h2

lemma initState_good (g : Geo) (c : Loc) (r : ℤ) : GoodState g (initState g c r) :=
  ⟨initState_nodup g c r, initState_coherent g c r, listen_covRegistered g _⟩

lemma initState_traceMatches (g : Geo) (c : Loc) (r : ℤ) :
    traceMatches (initState g c r) [] :=
  fun _ => ⟨rfl, rfl⟩

/-- C4: under the coverage contract of `geohashQueries` (every location
within the query circle has its geohash inside some covering range), for
every sequence of store notifications, read completions, catch-ups,
timer fires and criteria changes applied to one engine instance, a key
never fires `key_entered` twice without an intervening `key_exited`: its
enter/exit event subsequence has no two adjacent enters. -/
theorem c4_no_duplicate_key_entered (g : Geo) (c : Loc) (r : ℤ) (acts : List GQAction)
    (hg : CovSound g) (hnc : ∀ a ∈ acts, a ≠ GQAction.cancel) (k : Key) :
    noDupEnter (enterExitProj k (runActs g (initState g c r) acts).2) = true := by
  have h := (runActs_traceMatches g hg acts (initState g c r) [] hnc
    (initState_good g c r) (initState_traceMatches g c r)).2 k
  rw [List.nil_append] at h
  exact h.1

/-- Witness for C4: a concrete enter / exit / re-enter trace under the
concrete collaborator `geoA`, whose single constant range makes the
coverage contract trivially true. -/
theorem c4_no_duplicate_key_entered_witness :
    CovSound geoA ∧ (∀ a ∈ actsC4, a ≠ GQAction.cancel) ∧
    noDupEnter (enterExitProj "a"
      (runActs geoA (initState geoA (0, 0) 1) actsC4).2) = true := by
  have hg : CovSound geoA := fun c r loc _ =>
    ⟨("a", "z"), by simp [geoA], (by decide : strLe "a" "m" = true),
      (by decide : strLe "m" "z" = true)⟩
  exact ⟨hg, by decide,
    c4_no_duplicate_key_entered geoA (0, 0) 1 actsC4 hg (by decide) "a"⟩
